import Mathlib

/-!
Shallow embedding of the Tien Len rules engine (`src/game/tienlen.ts`) and
verification of the specification's claims about it.

Conventions of the embedding:
* TypeScript arrays become `List`s; `Array.prototype.sort` with the
  rank-then-suit comparator becomes `List.insertionSort` over the
  corresponding relation (both are stable sorts; only the sorted order is
  observable since equal keys mean equal cards).
* JavaScript numbers used as counts and indices become `Nat`
  (seat arithmetic `(p + 1) % players` is `Nat` modulus);
  `Math.sign` results and AI scores become `Int`.
* `state.hands[p]` is `state.hands.getD p []`: the engine only indexes hands
  with the (valid) current seat, so the default is never observable on the
  states the operations are specified for.
* Code that can throw at runtime (`dealPlayers` indexing `hands[i % players]`
  when the index is `NaN` or out of bounds) returns `Except JsError`.
-/

namespace TienLen

/-- The four suits, `'♠' | '♥' | '♦' | '♣'`. -/
inductive Suit where
  | spades | hearts | diamonds | clubs
deriving DecidableEq, Repr

/-- The thirteen ranks, in the game's low-to-high order `3,4,…,A,2`. -/
inductive Rank where
  | r3 | r4 | r5 | r6 | r7 | r8 | r9 | r10 | rJ | rQ | rK | rA | r2
deriving DecidableEq, Repr

/-- Source `RANKS`: the rank table in ranking order (index = strength). -/
def RANKS : List Rank :=
  [.r3, .r4, .r5, .r6, .r7, .r8, .r9, .r10, .rJ, .rQ, .rK, .rA, .r2]

/-- Source `rankIndex`: `RANKS.indexOf(r)`. -/
def rankIndex (r : Rank) : Nat := RANKS.indexOf r

/-- A card is a rank paired with a suit. -/
structure Card where
  rank : Rank
  suit : Suit
deriving DecidableEq, Repr

/-- Source `SUIT_ORDER`: the tie-break order `♣ < ♦ < ♥ < ♠`. -/
def SUIT_ORDER : List Suit := [.clubs, .diamonds, .hearts, .spades]

/-- Source `suitIndex`: `SUIT_ORDER.indexOf(s)`. -/
def suitIndex (s : Suit) : Nat := SUIT_ORDER.indexOf s

instance : Fintype Rank :=
  ⟨⟨RANKS, by decide⟩, fun x => by cases x <;> decide⟩

instance : Fintype Suit :=
  ⟨⟨SUIT_ORDER, by decide⟩, fun x => by cases x <;> decide⟩

/-- The rank-then-suit comparison used by `sortCardsByRankSuit`'s comparator:
`a` sorts no later than `b`. -/
def cardLE (a b : Card) : Prop :=
  rankIndex a.rank < rankIndex b.rank ∨
    (rankIndex a.rank = rankIndex b.rank ∧ suitIndex a.suit ≤ suitIndex b.suit)

instance : DecidableRel cardLE := fun a b => by
  unfold cardLE; exact inferInstance

theorem rankIndex_injective : ∀ r r' : Rank, rankIndex r = rankIndex r' → r = r' := by
  decide

theorem suitIndex_injective : ∀ s s' : Suit, suitIndex s = suitIndex s' → s = s' := by
  decide

instance : IsTotal Card cardLE :=
  ⟨fun a b => by unfold cardLE; omega⟩

instance : IsTrans Card cardLE :=
  ⟨fun a b c hab hbc => by unfold cardLE at *; omega⟩

instance : IsAntisymm Card cardLE :=
  ⟨fun a b hab hba => by
    have hr : rankIndex a.rank = rankIndex b.rank := by unfold cardLE at *; omega
    have hs : suitIndex a.suit = suitIndex b.suit := by unfold cardLE at *; omega
    cases a; cases b
    simp only [Card.mk.injEq]
    exact ⟨rankIndex_injective _ _ hr, suitIndex_injective _ _ hs⟩⟩

/-- Source `sortCardsByRankSuit`: stable sort by rank index, then suit index. -/
def sortCardsByRankSuit (cards : List Card) : List Card :=
  List.insertionSort cardLE cards

theorem sortCards_perm (cards : List Card) : List.Perm (sortCardsByRankSuit cards) cards :=
  List.perm_insertionSort cardLE cards

theorem sortCards_sorted (cards : List Card) :
    List.Sorted cardLE (sortCardsByRankSuit cards) :=
  List.sorted_insertionSort cardLE cards

/-- Sorting an already sorted list is the identity. -/
theorem sortCards_of_sorted {cards : List Card} (h : List.Sorted cardLE cards) :
    sortCardsByRankSuit cards = cards :=
  List.eq_of_perm_of_sorted (sortCards_perm cards) (sortCards_sorted cards) h

/-- The combination tags: `'single' | 'pair' | 'triple' | 'straight' | 'bomb4'`. -/
inductive ComboType where
  | single | pair | triple | straight | bomb4
deriving DecidableEq, Repr

/-- A detected combination: tag, normalized (rank-then-suit sorted) member
cards, and the primary comparison rank. -/
structure Combo where
  type : ComboType
  cards : List Card
  primaryRank : Rank
deriving DecidableEq, Repr

/-- A throwaway card used only where the source indexes a list it has already
established to be nonempty (`cards[0]`, `cards[cards.length - 1]`). -/
def dummyCard : Card := ⟨.r3, .spades⟩

/-- Source `isStraight`: length ≥ 3, no `'2'`, no duplicate ranks (the source compares
`new Set(ranks).size` with `ranks.length`; here `dedup`), strictly consecutive
rank indices. Called by `detectCombo` on the already sorted cards. -/
def isStraightB (cards : List Card) : Bool :=
  if cards.length < 3 then false
  else if (cards.map (fun c => c.rank)).any (fun r => r == Rank.r2) then false
  else if !((cards.map (fun c => c.rank)).dedup.length ==
      (cards.map (fun c => c.rank)).length) then false
  else consecB (cards.map (fun c => c.rank))
where
  /-- The source's index loop `rankIndex(ranks[i]) == rankIndex(ranks[i-1]) + 1`. -/
  consecB : List Rank → Bool
    | [] => true
    | [_] => true
    | a :: b :: rest => (rankIndex b == rankIndex a + 1) && consecB (b :: rest)

/-- Source `highestRank`: rank of the last card after sorting. -/
def highestRank (cards : List Card) : Rank :=
  ((sortCardsByRankSuit cards).getLastD dummyCard).rank

/-- Source `detectCombo`: classify a raw card list by cardinality after sorting. -/
def detectCombo (raw : List Card) : Option Combo :=
  match sortCardsByRankSuit raw with
  | [] => none
  | [c] => some ⟨.single, [c], c.rank⟩
  | [c1, c2] =>
    if c1.rank = c2.rank then some ⟨.pair, [c1, c2], c1.rank⟩ else none
  | [c1, c2, c3] =>
    if [c1, c2, c3].all (fun c => c.rank == c1.rank) then
      some ⟨.triple, [c1, c2, c3], c1.rank⟩
    else if isStraightB [c1, c2, c3] then
      some ⟨.straight, [c1, c2, c3], highestRank [c1, c2, c3]⟩
    else none
  | c1 :: c2 :: c3 :: c4 :: rest =>
    if rest.isEmpty && (c1 :: c2 :: c3 :: c4 :: rest).all (fun c => c.rank == c1.rank) then
      some ⟨.bomb4, c1 :: c2 :: c3 :: c4 :: rest, c1.rank⟩
    else if isStraightB (c1 :: c2 :: c3 :: c4 :: rest) then
      some ⟨.straight, c1 :: c2 :: c3 :: c4 :: rest,
        highestRank (c1 :: c2 :: c3 :: c4 :: rest)⟩
    else none

/-- Spec-modelled run test, following the spec's words: a straight is a
"strictly consecutive, `2`-free, duplicate-free run" of "length ≥ 3", with
"indices strictly consecutive in the rank order after sorting". -/
def runSpec (cards : List Card) : Bool :=
  let ranks := (sortCardsByRankSuit cards).map (fun c => c.rank)
  decide (3 ≤ cards.length) && decide (Rank.r2 ∉ ranks) && decide ranks.Nodup &&
    decide (List.Chain' (fun a b => rankIndex b = rankIndex a + 1) ranks)

/-- Spec-modelled "all cards share one rank". -/
def allSameRank (cards : List Card) : Bool :=
  cards.all (fun c => c.rank == (cards.headD dummyCard).rank)

/-- Spec-modelled detector, following the spec's cardinality rules: dispatch on
the number of cards; `primaryRank` is the shared rank for Pair/Triple/Bomb and
the rank of the highest card for a Straight; the combination's cards are the
rank-then-suit sorted input. -/
def detectSpec (raw : List Card) : Option Combo :=
  if raw.length = 0 then none
  else if raw.length = 1 then
    some ⟨.single, sortCardsByRankSuit raw,
      ((sortCardsByRankSuit raw).headD dummyCard).rank⟩
  else if raw.length = 2 then
    if allSameRank (sortCardsByRankSuit raw) then
      some ⟨.pair, sortCardsByRankSuit raw,
        ((sortCardsByRankSuit raw).headD dummyCard).rank⟩
    else none
  else if raw.length = 3 then
    if allSameRank (sortCardsByRankSuit raw) then
      some ⟨.triple, sortCardsByRankSuit raw,
        ((sortCardsByRankSuit raw).headD dummyCard).rank⟩
    else if runSpec raw then
      some ⟨.straight, sortCardsByRankSuit raw,
        ((sortCardsByRankSuit raw).getLastD dummyCard).rank⟩
    else none
  else if raw.length = 4 then
    if allSameRank (sortCardsByRankSuit raw) then
      some ⟨.bomb4, sortCardsByRankSuit raw,
        ((sortCardsByRankSuit raw).headD dummyCard).rank⟩
    else if runSpec raw then
      some ⟨.straight, sortCardsByRankSuit raw,
        ((sortCardsByRankSuit raw).getLastD dummyCard).rank⟩
    else none
  else if runSpec raw then
    some ⟨.straight, sortCardsByRankSuit raw,
      ((sortCardsByRankSuit raw).getLastD dummyCard).rank⟩
  else none

theorem bool_eq_of_iff {a b : Bool} (h : a = true ↔ b = true) : a = b := by
  cases a <;> cases b <;> simp_all

theorem consecB_eq_chain :
    ∀ ranks : List Rank,
      isStraightB.consecB ranks =
        decide (List.Chain' (fun a b => rankIndex b = rankIndex a + 1) ranks)
  | [] => by simp [isStraightB.consecB]
  | [a] => by simp [isStraightB.consecB]
  | a :: b :: rest => by
    have ih := consecB_eq_chain (b :: rest)
    apply bool_eq_of_iff
    simp [isStraightB.consecB, List.chain'_cons, ih]

theorem dedup_length_eq_iff {α : Type} [DecidableEq α] (l : List α) :
    l.dedup.length = l.length ↔ l.Nodup := by
  constructor
  · intro h
    have := (List.dedup_sublist l).eq_of_length h
    rw [← this]
    exact l.nodup_dedup
  · intro h
    rw [List.dedup_eq_self.mpr h]

theorem isStraightB_true_iff (cards : List Card) :
    isStraightB cards = true ↔
      (3 ≤ cards.length ∧ Rank.r2 ∉ cards.map (fun c => c.rank) ∧
        (cards.map (fun c => c.rank)).Nodup ∧
        List.Chain' (fun a b => rankIndex b = rankIndex a + 1)
          (cards.map (fun c => c.rank))) := by
  unfold isStraightB
  split_ifs with h1 h2 h3
  · simp only [Bool.false_eq_true, false_iff]
    intro h
    omega
  · simp only [Bool.false_eq_true, false_iff]
    intro h
    rcases List.any_eq_true.mp h2 with ⟨r, hr, hb⟩
    rw [beq_iff_eq] at hb
    subst hb
    exact h.2.1 hr
  · simp only [Bool.false_eq_true, false_iff]
    intro h
    simp only [Bool.not_eq_true', beq_eq_false_iff_ne, ne_eq] at h3
    exact h3 ((dedup_length_eq_iff _).mpr h.2.2.1)
  · rw [consecB_eq_chain]
    simp only [decide_eq_true_eq]
    constructor
    · intro hc
      refine ⟨by omega, ?_, ?_, hc⟩
      · intro hmem
        exact h2 (List.any_eq_true.mpr ⟨Rank.r2, hmem, by simp⟩)
      · simp only [Bool.not_eq_true', beq_eq_false_iff_ne, ne_eq, not_not] at h3
        exact (dedup_length_eq_iff _).mp h3
    · intro h
      exact h.2.2.2

theorem runSpec_true_iff (raw : List Card) :
    runSpec raw = true ↔
      (3 ≤ raw.length ∧
        Rank.r2 ∉ (sortCardsByRankSuit raw).map (fun c => c.rank) ∧
        ((sortCardsByRankSuit raw).map (fun c => c.rank)).Nodup ∧
        List.Chain' (fun a b => rankIndex b = rankIndex a + 1)
          ((sortCardsByRankSuit raw).map (fun c => c.rank))) := by
  simp [runSpec, and_assoc]

/-- On the sorted cards (which is how `detectCombo` calls it), the source's
`isStraight` agrees with the spec's run condition. -/
theorem straight_bridge (raw : List Card) :
    isStraightB (sortCardsByRankSuit raw) = runSpec raw := by
  apply bool_eq_of_iff
  rw [isStraightB_true_iff, runSpec_true_iff, (sortCards_perm raw).length_eq]

theorem detect_eq (raw : List Card) : detectCombo raw = detectSpec raw := by
  have hlen := (sortCards_perm raw).length_eq
  have hsorted := sortCards_sorted raw
  have hbridge := straight_bridge raw
  unfold detectCombo detectSpec
  rcases hs : sortCardsByRankSuit raw with _ | ⟨c1, _ | ⟨c2, _ | ⟨c3, _ | ⟨c4, rest⟩⟩⟩⟩ <;>
    rw [hs] at hlen hsorted hbridge
  · simp [← hlen]
  · simp [← hlen]
  · by_cases h : c1.rank = c2.rank
    · simp [← hlen, allSameRank, h]
    · simp [← hlen, allSameRank, h, Ne.symm h]
  · by_cases hall : ([c1, c2, c3].all (fun c => c.rank == c1.rank)) = true
    · simp only [← hlen]
      simp [allSameRank, hall]
    · by_cases hstr : isStraightB [c1, c2, c3] = true
      · have hrun : runSpec raw = true := hbridge ▸ hstr
        simp only [← hlen]
        simp [allSameRank, hstr, hrun, highestRank, sortCards_of_sorted hsorted]
      · have hrun : runSpec raw = false := by
          rw [← hbridge]
          exact Bool.not_eq_true _ |>.mp hstr
        simp only [← hlen]
        simp [allSameRank, hstr, hrun]
  · rcases rest with _ | ⟨c5, rest'⟩
    · by_cases hall : ([c1, c2, c3, c4].all (fun c => c.rank == c1.rank)) = true
      · simp only [← hlen]
        simp [allSameRank, hall]
      · by_cases hstr : isStraightB [c1, c2, c3, c4] = true
        · have hrun : runSpec raw = true := hbridge ▸ hstr
          simp only [← hlen]
          simp [allSameRank, hstr, hrun, highestRank, sortCards_of_sorted hsorted]
        · have hrun : runSpec raw = false := by
            rw [← hbridge]
            exact Bool.not_eq_true _ |>.mp hstr
          simp only [← hlen]
          simp [allSameRank, hstr, hrun]
    · have h0 : ¬(raw.length = 0) := by simp at hlen; omega
      have h1 : ¬(raw.length = 1) := by simp at hlen; omega
      have h2 : ¬(raw.length = 2) := by simp at hlen; omega
      have h3 : ¬(raw.length = 3) := by simp at hlen; omega
      have h4 : ¬(raw.length = 4) := by simp at hlen; omega
      by_cases hstr : isStraightB (c1 :: c2 :: c3 :: c4 :: c5 :: rest') = true
      · have hrun : runSpec raw = true := hbridge ▸ hstr
        simp [h0, h1, h2, h3, h4, hstr, hrun, highestRank,
          sortCards_of_sorted hsorted]
      · have hrun : runSpec raw = false := by
          rw [← hbridge]
          exact Bool.not_eq_true _ |>.mp hstr
        simp [h0, h1, h2, h3, h4, hstr, hrun]

/-- C1. `detectCombo` classifies every card list exactly by the spec's
cardinality rules (0 → none; 1 → Single; 2 → Pair iff equal ranks; 3 → Triple
iff all equal, else Straight iff a strictly consecutive, 2-free,
duplicate-free run; 4 → Bomb iff all equal, else Straight; ≥ 5 → Straight iff
such a run of that exact length), returning the shared rank as `primaryRank`
for Pair/Triple/Bomb, the highest card's rank for Straight, and the
rank-then-suit sorted input as the combination's cards (`detectSpec` renders
exactly those rules). -/
theorem detectCombo_matches_spec (raw : List Card) :
    detectCombo raw = detectSpec raw :=
  detect_eq raw

/-- The spec's three-valued comparison outcome. -/
inductive CmpResult where
  | less | equal | greater
deriving DecidableEq, Repr

/-- How a challenger index `b` compares against an incumbent index `a`. -/
def cmpAgainst (a b : Nat) : CmpResult :=
  if a < b then .greater else if b < a then .less else .equal

/-- The signed rendering of a comparison outcome used by the source
(`-1`/`0`/`1`). -/
def toSign : CmpResult → Int
  | .less => -1
  | .equal => 0
  | .greater => 1

/-- Source `compareCombos`: signed "does `next` beat `prev`" with bomb handling. -/
def compareCombos (prev next : Combo) : Int :=
  if prev.type = ComboType.bomb4 then
    if next.type = ComboType.bomb4 then
      Int.sign ((rankIndex next.primaryRank : Int) - (rankIndex prev.primaryRank : Int))
    else -1
  else if next.type = ComboType.bomb4 then 1
  else if prev.type ≠ next.type then -1
  -- the source writes the size check as two branches (straight / other),
  -- both comparing `prev.cards.length !== next.cards.length`
  else if (if prev.type = ComboType.straight then
      prev.cards.length ≠ next.cards.length
    else prev.cards.length ≠ next.cards.length) then -1
  else if Int.sign ((rankIndex next.primaryRank : Int) -
      (rankIndex prev.primaryRank : Int)) ≠ 0 then
    Int.sign ((rankIndex next.primaryRank : Int) - (rankIndex prev.primaryRank : Int))
  else
    Int.sign
      ((suitIndex ((sortCardsByRankSuit next.cards).getLastD dummyCard).suit : Int) -
        (suitIndex ((sortCardsByRankSuit prev.cards).getLastD dummyCard).suit : Int))

/-- Spec-modelled comparator, following the spec's five ordered checks:
bombs are beaten only by strictly higher bombs; a bomb beats any non-bomb;
type or cardinality mismatch is "less", never "equal"; otherwise rank-order
comparison of `primaryRank`; at equal `primaryRank`, suit-order comparison of
the combinations' highest-sorted cards. -/
def compareSpec (prev next : Combo) : CmpResult :=
  if prev.type = ComboType.bomb4 then
    if next.type = ComboType.bomb4 then
      cmpAgainst (rankIndex prev.primaryRank) (rankIndex next.primaryRank)
    else .less
  else if next.type = ComboType.bomb4 then .greater
  else if prev.type ≠ next.type ∨ prev.cards.length ≠ next.cards.length then .less
  else
    match cmpAgainst (rankIndex prev.primaryRank) (rankIndex next.primaryRank) with
    | .equal =>
      cmpAgainst (suitIndex ((sortCardsByRankSuit prev.cards).getLastD dummyCard).suit)
        (suitIndex ((sortCardsByRankSuit next.cards).getLastD dummyCard).suit)
    | r => r

theorem sign_sub_eq_cmpAgainst (a b : Nat) :
    Int.sign ((b : Int) - (a : Int)) = toSign (cmpAgainst a b) := by
  unfold cmpAgainst toSign
  split_ifs with h1 h2
  · exact Int.sign_eq_one_iff_pos.mpr (by omega)
  · exact Int.sign_eq_neg_one_iff_neg.mpr (by omega)
  · have hz : (b : Int) - (a : Int) = 0 := by omega
    rw [hz]
    rfl

theorem compare_eq (prev next : Combo) :
    compareCombos prev next = toSign (compareSpec prev next) := by
  unfold compareCombos compareSpec
  by_cases hpb : prev.type = ComboType.bomb4
  · by_cases hnb : next.type = ComboType.bomb4
    · simp [hpb, hnb, sign_sub_eq_cmpAgainst]
    · simp [hpb, hnb, toSign]
  · by_cases hnb : next.type = ComboType.bomb4
    · simp [hpb, hnb, toSign]
    · by_cases hty : prev.type = next.type
      · by_cases hsz : prev.cards.length = next.cards.length
        · rcases hcmp : cmpAgainst (rankIndex prev.primaryRank)
            (rankIndex next.primaryRank) with _ | _ | _ <;>
            simp [hpb, hnb, hty, hsz, sign_sub_eq_cmpAgainst, hcmp, toSign]
        · simp [hpb, hnb, hty, hsz, toSign]
      · simp [hpb, hnb, hty, toSign]

/-- C2. `compareCombos` follows the spec's five ordered checks: a Bomb is
beaten ("greater") only by a Bomb of strictly higher `primaryRank` and any
non-Bomb challenger is "less"; otherwise a Bomb challenger is "greater";
otherwise any type or card-count mismatch is "less" and never "equal";
otherwise the result is the rank-order comparison of `primaryRank`; and at
equal `primaryRank` it is the suit-order comparison of the two combinations'
highest-sorted cards (`compareSpec` renders exactly those checks, `toSign`
the source's signed encoding). -/
theorem compareCombos_matches_spec (prev next : Combo) :
    compareCombos prev next = toSign (compareSpec prev next) :=
  compare_eq prev next

/-- The table state (`GameState` in the source). -/
structure GameState where
  players : Nat
  hands : List (List Card)
  currentPlayer : Nat
  lastCombo : Option Combo
  passesInRow : Nat
  started : Bool
  finished : Bool
deriving DecidableEq, Repr

/-- The source's membership loop in `isLegalMove`: for each proposed card,
find it in a working copy of the hand (`findIndex`), fail if absent, else
remove that copy (`splice`). -/
def takeFromHand : List Card → List Card → Option (List Card)
  | [], hand => some hand
  | c :: rest, hand =>
    if c ∈ hand then takeFromHand rest (hand.erase c) else none

/-- The result record of `isLegalMove`: `{ ok, reason?, combo? }`. -/
structure LegalRes where
  ok : Bool
  reason : Option String
  combo : Option Combo
deriving DecidableEq, Repr

/-- Source `isLegalMove`: validate a proposed card set against the state. -/
def isLegalMove (s : GameState) (player : Nat) (cards : List Card) : LegalRes :=
  if s.finished then ⟨false, some "game finished", none⟩
  else if !s.started then ⟨false, some "game not started", none⟩
  else if player ≠ s.currentPlayer then ⟨false, some "not your turn", none⟩
  else
    match takeFromHand cards (s.hands.getD player []) with
    | none => ⟨false, some "card not in hand", none⟩
    | some _ =>
      match detectCombo cards with
      | none => ⟨false, some "invalid combo", none⟩
      | some combo =>
        match s.lastCombo with
        | none => ⟨true, none, some combo⟩
        | some last =>
          if compareCombos last combo > 0 then ⟨true, none, some combo⟩
          else ⟨false, some "does not beat last combo", some combo⟩

/-- Source `applyMove`: remove the combination's cards from the seat's hand, put the
combination on the table, reset the pass counter, flag a win when the hand
empties, and advance the turn. -/
def applyMove (s : GameState) (player : Nat) (combo : Combo) : GameState :=
  { players := s.players
    hands := s.hands.set player
      (combo.cards.foldl (fun h c => h.erase c) (s.hands.getD player []))
    currentPlayer := (player + 1) % s.players
    lastCombo := some combo
    passesInRow := 0
    started := s.started
    finished := s.finished ||
      (combo.cards.foldl (fun h c => h.erase c) (s.hands.getD player [])).isEmpty }

/-- Source `applyPass`: no-op when finished; otherwise count the pass, clear the
table after `players - 1` passes in a row, and advance the turn. -/
def applyPass (s : GameState) (player : Nat) : GameState :=
  if s.finished then s
  else
    { s with
      passesInRow := if s.passesInRow + 1 ≥ s.players - 1 then 0 else s.passesInRow + 1
      lastCombo := if s.passesInRow + 1 ≥ s.players - 1 then none else s.lastCombo
      currentPlayer := (player + 1) % s.players }

theorem takeFromHand_some_le :
    ∀ {cards hand h' : List Card}, takeFromHand cards hand = some h' →
      (cards : Multiset Card) ≤ (hand : Multiset Card)
  | [], hand, h', _ => by simp
  | c :: rest, hand, h', h => by
    unfold takeFromHand at h
    split_ifs at h with hc
    · have ih := takeFromHand_some_le h
      rw [← Multiset.cons_coe]
      calc (c ::ₘ (rest : Multiset Card))
          ≤ c ::ₘ ((hand : Multiset Card).erase c) := by
            apply Multiset.cons_le_cons
            rwa [Multiset.coe_erase]
        _ = (hand : Multiset Card) := Multiset.cons_erase (by exact_mod_cast hc)

theorem takeFromHand_isSome_of_le :
    ∀ {cards hand : List Card}, (cards : Multiset Card) ≤ (hand : Multiset Card) →
      ∃ h', takeFromHand cards hand = some h'
  | [], hand, _ => ⟨hand, rfl⟩
  | c :: rest, hand, h => by
    rw [← Multiset.cons_coe] at h
    have hc : c ∈ hand := by
      have : c ∈ (hand : Multiset Card) :=
        Multiset.mem_of_le h (Multiset.mem_cons_self c _)
      exact_mod_cast this
    have hrest : (rest : Multiset Card) ≤ ((hand.erase c : List Card) : Multiset Card) := by
      have h2 := Multiset.erase_le_erase c h
      rwa [Multiset.erase_cons_head, Multiset.coe_erase] at h2
    obtain ⟨h', hh⟩ := takeFromHand_isSome_of_le hrest
    exact ⟨h', by unfold takeFromHand; rw [if_pos hc]; exact hh⟩

/-- Spec-modelled "every proposed card is present in the seat's hand", read
multiset-wise: the source's working-copy loop removes each matched card, so a
card may be proposed at most as often as the hand holds it. -/
def specHasCards (hand cards : List Card) : Bool :=
  cards.all (fun c => decide (cards.count c ≤ hand.count c))

theorem specHasCards_iff (hand cards : List Card) :
    specHasCards hand cards = true ↔
      (cards : Multiset Card) ≤ (hand : Multiset Card) := by
  unfold specHasCards
  rw [List.all_eq_true]
  constructor
  · intro h
    rw [Multiset.le_iff_count]
    intro a
    by_cases ha : a ∈ cards
    · have := h a ha
      rw [decide_eq_true_eq] at this
      simpa [Multiset.coe_count] using this
    · simp [Multiset.coe_count, List.count_eq_zero_of_not_mem ha]
  · intro h c hc
    rw [Multiset.le_iff_count] at h
    have := h c
    rw [decide_eq_true_eq]
    simpa [Multiset.coe_count] using this

/-- The spec's failure taxonomy for `CheckLegalMove`. -/
inductive MoveFailure where
  | gameFinished | notStarted | notYourTurn | cardNotInHand | invalidCombo
  | doesNotBeatLastCombo
deriving DecidableEq, Repr

/-- The reason string the source reports for each spec failure. -/
def failureText : MoveFailure → String
  | .gameFinished => "game finished"
  | .notStarted => "game not started"
  | .notYourTurn => "not your turn"
  | .cardNotInHand => "card not in hand"
  | .invalidCombo => "invalid combo"
  | .doesNotBeatLastCombo => "does not beat last combo"

/-- A spec-level legality verdict: a legal detected combination, or a failure
(carrying the detected combination when one exists, as the source does for
the does-not-beat case). -/
inductive MoveCheck where
  | legal : Combo → MoveCheck
  | illegal : MoveFailure → Option Combo → MoveCheck
deriving DecidableEq, Repr

/-- Spec-modelled `CheckLegalMove`: the ordered checks GameFinished,
NotStarted, NotYourTurn, CardNotInHand (a proposed card missing from the
seat's hand, counting multiplicity), InvalidCombo (the Detector returns
none); then legal when `lastCombo` is absent, legal when the Comparator says
the detected combination beats `lastCombo`, else DoesNotBeatLastCombo. -/
def checkLegalMoveSpec (s : GameState) (player : Nat) (cards : List Card) :
    MoveCheck :=
  if s.finished then .illegal .gameFinished none
  else if s.started = false then .illegal .notStarted none
  else if player ≠ s.currentPlayer then .illegal .notYourTurn none
  else if specHasCards (s.hands.getD player []) cards = false then
    .illegal .cardNotInHand none
  else
    match detectSpec cards with
    | none => .illegal .invalidCombo none
    | some combo =>
      match s.lastCombo with
      | none => .legal combo
      | some last =>
        if compareSpec last combo = CmpResult.greater then .legal combo
        else .illegal .doesNotBeatLastCombo (some combo)

/-- Render a spec verdict as the source's result record. -/
def interpCheck : MoveCheck → LegalRes
  | .legal combo => ⟨true, none, some combo⟩
  | .illegal f combo => ⟨false, some (failureText f), combo⟩

theorem toSign_pos_iff (r : CmpResult) : (0 < toSign r) ↔ r = CmpResult.greater := by
  cases r <;> simp [toSign]

theorem legal_eq (s : GameState) (p : Nat) (cards : List Card) :
    isLegalMove s p cards = interpCheck (checkLegalMoveSpec s p cards) := by
  unfold isLegalMove checkLegalMoveSpec
  by_cases hf : s.finished
  · simp [hf, interpCheck, failureText]
  · by_cases hst : s.started
    · by_cases hp : p = s.currentPlayer
      · rw [hp]
        by_cases hm : specHasCards (s.hands.getD s.currentPlayer []) cards = true
        · obtain ⟨h', hh⟩ := takeFromHand_isSome_of_le ((specHasCards_iff _ _).mp hm)
          rw [hm, hh, detect_eq cards]
          rcases hd : detectSpec cards with _ | combo
          · simp [hf, hst, interpCheck, failureText]
          · rcases hl : s.lastCombo with _ | last
            · simp [hf, hst, interpCheck]
            · by_cases hcmp : compareSpec last combo = CmpResult.greater
              · have hgt : compareCombos last combo > 0 := by
                  rw [gt_iff_lt, compare_eq, toSign_pos_iff]
                  exact hcmp
                simp [hf, hst, hgt, hcmp, interpCheck]
              · have hngt : ¬(compareCombos last combo > 0) := by
                  rw [gt_iff_lt, compare_eq, toSign_pos_iff]
                  exact hcmp
                simp [hf, hst, hngt, hcmp, interpCheck, failureText]
        · have hnone : takeFromHand cards (s.hands.getD s.currentPlayer []) = none := by
            rcases h : takeFromHand cards (s.hands.getD s.currentPlayer []) with _ | h'
            · rfl
            · exact absurd ((specHasCards_iff _ _).mpr (takeFromHand_some_le h)) hm
          have hm' : specHasCards (s.hands.getD s.currentPlayer []) cards = false :=
            Bool.not_eq_true _ |>.mp hm
          rw [hnone, hm']
          simp [hf, hst, interpCheck, failureText]
      · simp [hf, hst, hp, interpCheck, failureText]
    · have hst' : s.started = false := Bool.not_eq_true _ |>.mp hst
      simp [hf, hst', interpCheck, failureText]

/-- C3. `isLegalMove` returns a non-ok result with the corresponding reason
exactly per the spec's ordered checks — game finished, not started, seat not
`currentPlayer`, a proposed card missing from the seat's hand, Detector
returns none — and when all pass it is ok with the detected combination if
`lastCombo` is absent, ok if the Comparator says the detected combination
beats `lastCombo`, and a does-not-beat failure otherwise
(`checkLegalMoveSpec` renders exactly those checks, `interpCheck` the
source's result record). -/
theorem isLegalMove_matches_spec (s : GameState) (p : Nat) (cards : List Card) :
    isLegalMove s p cards = interpCheck (checkLegalMoveSpec s p cards) :=
  legal_eq s p cards

theorem getD_set_self {α : Type} :
    ∀ (l : List α) (i : Nat) (a d : α), i < l.length → (l.set i a).getD i d = a
  | [], i, _, _, h => absurd h (by simp)
  | _ :: _, 0, _, _, _ => rfl
  | _ :: t, i + 1, a, d, h =>
    getD_set_self t i a d (by simpa using h)

theorem getD_set_ne {α : Type} :
    ∀ (l : List α) (i j : Nat) (a d : α), i ≠ j →
      (l.set i a).getD j d = l.getD j d
  | [], _, _, _, _, _ => rfl
  | _ :: _, 0, 0, _, _, h => absurd rfl h
  | _ :: _, 0, _ + 1, _, _, _ => rfl
  | _ :: _, _ + 1, 0, _, _, _ => rfl
  | _ :: t, i + 1, j + 1, a, d, h =>
    getD_set_ne t i j a d (fun he => h (by rw [he]))

/-- Removing a list of cards one by one (first occurrence each) is multiset
subtraction. -/
theorem foldl_erase_coe :
    ∀ (cs hand : List Card),
      ((cs.foldl (fun h c => h.erase c) hand : List Card) : Multiset Card) =
        (hand : Multiset Card) - (cs : Multiset Card)
  | [], hand => by simp
  | c :: rest, hand => by
    rw [List.foldl_cons, foldl_erase_coe rest (hand.erase c), ← Multiset.cons_coe,
      Multiset.sub_cons, Multiset.coe_erase]

theorem foldl_erase_length (cs hand : List Card)
    (h : (cs : Multiset Card) ≤ (hand : Multiset Card)) :
    (cs.foldl (fun h c => h.erase c) hand).length = hand.length - cs.length := by
  have hcard := congrArg Multiset.card (foldl_erase_coe cs hand)
  rwa [Multiset.card_sub h, Multiset.coe_card, Multiset.coe_card,
    Multiset.coe_card] at hcard

/-- Every combination `detectCombo` produces carries the sorted input as its
cards. -/
theorem detect_cards_eq :
    ∀ {raw : List Card} {combo : Combo}, detectCombo raw = some combo →
      combo.cards = sortCardsByRankSuit raw := by
  intro raw combo h
  rw [detect_eq] at h
  unfold detectSpec at h
  split_ifs at h <;> cases h <;> rfl

/-- What an accepting `isLegalMove` run guarantees. -/
theorem isLegalMove_ok_elim {s : GameState} {p : Nat} {cards : List Card}
    {combo : Combo} (h : isLegalMove s p cards = ⟨true, none, some combo⟩) :
    s.finished = false ∧ s.started = true ∧ p = s.currentPlayer ∧
      (cards : Multiset Card) ≤ ((s.hands.getD p [] : List Card) : Multiset Card) ∧
      detectCombo cards = some combo := by
  unfold isLegalMove at h
  split_ifs at h with hf hst hp
  · cases h
  · cases h
  · cases h
  · rcases ht : takeFromHand cards (s.hands.getD p []) with _ | h₀ <;> rw [ht] at h
    · cases h
    · rcases hd : detectCombo cards with _ | combo' <;> rw [hd] at h
      · cases h
      · rcases hl : s.lastCombo with _ | last <;> rw [hl] at h
        · simp only [LegalRes.mk.injEq, Option.some.injEq] at h
          exact ⟨Bool.not_eq_true _ |>.mp hf, by simpa using hst, not_not.mp hp,
            takeFromHand_some_le ht, by rw [h.2.2]⟩
        · by_cases hcmp : compareCombos last combo' > 0
          · simp only [if_pos hcmp, LegalRes.mk.injEq, Option.some.injEq] at h
            exact ⟨Bool.not_eq_true _ |>.mp hf, by simpa using hst, not_not.mp hp,
              takeFromHand_some_le ht, by rw [h.2.2]⟩
          · simp only [if_neg hcmp, LegalRes.mk.injEq, Option.some.injEq] at h
            exact absurd h.1 (by simp)

theorem detect_ne_nil {raw : List Card} {combo : Combo}
    (h : detectCombo raw = some combo) : raw ≠ [] := by
  intro he
  subst he
  cases h

/-- C4. For every state, seat and combination accepted by the legality check,
`applyMove` removes exactly the combination's member cards (by value) from
that seat's hand — so the hand shrinks by the combination's size and no other
hand changes — sets `lastCombo` to the played combination, resets
`passesInRow` to 0, sets `finished` exactly when the seat's hand became
empty, and advances `currentPlayer` to `(seat + 1) mod players`. -/
theorem applyMove_spec (s : GameState) (p : Nat) (cards : List Card)
    (combo : Combo) (hacc : isLegalMove s p cards = ⟨true, none, some combo⟩) :
    ((applyMove s p combo).hands.getD p [] : Multiset Card) =
        ((s.hands.getD p [] : List Card) : Multiset Card) -
          (combo.cards : Multiset Card) ∧
      ((applyMove s p combo).hands.getD p []).length =
        (s.hands.getD p []).length - combo.cards.length ∧
      combo.cards.length ≤ (s.hands.getD p []).length ∧
      (∀ i, i ≠ p → (applyMove s p combo).hands.getD i [] = s.hands.getD i []) ∧
      (applyMove s p combo).lastCombo = some combo ∧
      (applyMove s p combo).passesInRow = 0 ∧
      ((applyMove s p combo).finished = true ↔
        (applyMove s p combo).hands.getD p [] = []) ∧
      (applyMove s p combo).currentPlayer = (p + 1) % s.players := by
  obtain ⟨hf, _, _, hle, hdet⟩ := isLegalMove_ok_elim hacc
  have hcards : combo.cards = sortCardsByRankSuit cards := detect_cards_eq hdet
  have hcoe : (combo.cards : Multiset Card) = (cards : Multiset Card) := by
    rw [hcards]
    exact Multiset.coe_eq_coe.mpr (sortCards_perm cards)
  have hle' : (combo.cards : Multiset Card) ≤
      ((s.hands.getD p [] : List Card) : Multiset Card) := hcoe ▸ hle
  have hrange : p < s.hands.length := by
    by_contra hout
    rw [List.getD_eq_default _ _ (by omega)] at hle
    have : cards = [] := by simpa using hle
    exact detect_ne_nil hdet this
  have hhand : (applyMove s p combo).hands.getD p [] =
      combo.cards.foldl (fun h c => h.erase c) (s.hands.getD p []) := by
    unfold applyMove
    exact getD_set_self _ _ _ _ hrange
  refine ⟨?_, ?_, ?_, ?_, rfl, rfl, ?_, rfl⟩
  · rw [hhand, foldl_erase_coe]
  · rw [hhand, foldl_erase_length _ _ hle']
  · have := Multiset.card_le_card hle'
    simpa [Multiset.coe_card] using this
  · intro i hi
    unfold applyMove
    exact getD_set_ne _ _ _ _ _ (Ne.symm hi)
  · rw [hhand]
    show (s.finished || _) = true ↔ _
    rw [hf]
    simp [List.isEmpty_iff]

/-- C5. `applyPass` on a non-finished state increments `passesInRow`,
resetting it to 0 and clearing `lastCombo` when the incremented count reaches
`players - 1` or more, and advances `currentPlayer` to `(seat + 1) mod
players`; on a finished state it returns the state unchanged. -/
theorem applyPass_spec (s : GameState) (p : Nat) :
    (s.finished = false →
      (applyPass s p).passesInRow =
          (if s.passesInRow + 1 ≥ s.players - 1 then 0 else s.passesInRow + 1) ∧
        (applyPass s p).lastCombo =
          (if s.passesInRow + 1 ≥ s.players - 1 then none else s.lastCombo) ∧
        (applyPass s p).hands = s.hands ∧
        (applyPass s p).currentPlayer = (p + 1) % s.players) ∧
    (s.finished = true → applyPass s p = s) := by
  constructor
  · intro hf
    unfold applyPass
    rw [if_neg (by simp [hf])]
    exact ⟨rfl, rfl, rfl, rfl⟩
  · intro hf
    unfold applyPass
    rw [if_pos hf]

/-- A small in-progress 4-player position used to instantiate the theorems:
seat 0 (to move) holds the 3♣, the table is clear. -/
def sampleState : GameState :=
  { players := 4
    hands := [[⟨.r3, .clubs⟩], [⟨.r4, .clubs⟩], [⟨.r5, .clubs⟩], [⟨.r6, .clubs⟩]]
    currentPlayer := 0
    lastCombo := none
    passesInRow := 0
    started := true
    finished := false }

/-- The single 3♣ as `detectCombo` produces it. -/
def sampleCombo : Combo := ⟨.single, [⟨.r3, .clubs⟩], .r3⟩

/-- A finished position in which seat 0 still holds a card. -/
def finishedState : GameState :=
  { players := 4
    hands := [[⟨.r3, .clubs⟩], [], [⟨.r5, .clubs⟩], [⟨.r6, .clubs⟩]]
    currentPlayer := 0
    lastCombo := none
    passesInRow := 0
    started := true
    finished := true }

theorem applyMove_spec_witness :
    ((applyMove sampleState 0 sampleCombo).hands.getD 0 [] : Multiset Card) =
        ((sampleState.hands.getD 0 [] : List Card) : Multiset Card) -
          (sampleCombo.cards : Multiset Card) ∧
      ((applyMove sampleState 0 sampleCombo).hands.getD 0 []).length =
        (sampleState.hands.getD 0 []).length - sampleCombo.cards.length ∧
      sampleCombo.cards.length ≤ (sampleState.hands.getD 0 []).length ∧
      (∀ i, i ≠ 0 →
        (applyMove sampleState 0 sampleCombo).hands.getD i [] =
          sampleState.hands.getD i []) ∧
      (applyMove sampleState 0 sampleCombo).lastCombo = some sampleCombo ∧
      (applyMove sampleState 0 sampleCombo).passesInRow = 0 ∧
      ((applyMove sampleState 0 sampleCombo).finished = true ↔
        (applyMove sampleState 0 sampleCombo).hands.getD 0 [] = []) ∧
      (applyMove sampleState 0 sampleCombo).currentPlayer =
        (0 + 1) % sampleState.players :=
  applyMove_spec sampleState 0 [⟨.r3, .clubs⟩] sampleCombo (by decide)

theorem applyPass_spec_witness :
    ((applyPass sampleState 0).passesInRow =
        (if sampleState.passesInRow + 1 ≥ sampleState.players - 1 then 0
          else sampleState.passesInRow + 1) ∧
      (applyPass sampleState 0).lastCombo =
        (if sampleState.passesInRow + 1 ≥ sampleState.players - 1 then none
          else sampleState.lastCombo) ∧
      (applyPass sampleState 0).hands = sampleState.hands ∧
      (applyPass sampleState 0).currentPlayer = (0 + 1) % sampleState.players) ∧
    applyPass finishedState 0 = finishedState :=
  ⟨(applyPass_spec sampleState 0).1 rfl, (applyPass_spec finishedState 0).2 rfl⟩

/-- C6 counterexample: on a finished state, `applyMove` (which has no
`finished` guard) still removes cards, so "neither applyMove nor applyPass
changes any hand" fails for a direct `applyMove` call. -/
theorem finished_applyMove_changes_hand :
    finishedState.finished = true ∧
      (applyMove finishedState 0 sampleCombo).hands.getD 0 [] ≠
        finishedState.hands.getD 0 [] := by
  decide

/-- C6 (amended). On a finished state `applyPass` returns the state unchanged
(hands included), and `isLegalMove` rejects every proposed move, so no
`applyMove` call that satisfies its validate-first precondition can arise;
only a direct, precondition-violating `applyMove` can still change a hand. -/
theorem finished_state_hands_frozen (s : GameState) (p : Nat)
    (cards : List Card) (hf : s.finished = true) :
    (applyPass s p).hands = s.hands ∧ (isLegalMove s p cards).ok = false := by
  constructor
  · simp [applyPass, hf]
  · simp [isLegalMove, hf]

theorem finished_state_hands_frozen_witness :
    (applyPass finishedState 0).hands = finishedState.hands ∧
      (isLegalMove finishedState 0 [⟨.r3, .clubs⟩]).ok = false :=
  finished_state_hands_frozen finishedState 0 [⟨.r3, .clubs⟩] rfl

/-- C10 counterexample: a duplicate-card request against a finished state is
rejected with reason "game finished", not "card not in hand", so the claim's
"for every state" phrasing fails; the working-copy behaviour holds only once
the turn-order checks pass. -/
theorem duplicate_request_counterexample :
    (finishedState.hands.getD 0 []).count (⟨.r3, .clubs⟩ : Card) <
        ([⟨.r3, .clubs⟩, ⟨.r3, .clubs⟩] : List Card).count ⟨.r3, .clubs⟩ ∧
      isLegalMove finishedState 0 [⟨.r3, .clubs⟩, ⟨.r3, .clubs⟩] =
        ⟨false, some "game finished", none⟩ := by
  decide

/-- C10 (amended). When the game is started, not finished, and the seat is the
current player, a proposed list holding more copies of some card than the
seat's hand does is rejected with the card-not-in-hand reason: the membership
check removes each matched card from a working copy of the hand. -/
theorem duplicate_request_rejected (s : GameState) (p : Nat)
    (cards : List Card) (c : Card) (hf : s.finished = false)
    (hst : s.started = true) (hp : p = s.currentPlayer)
    (hdup : (s.hands.getD p []).count c < cards.count c) :
    isLegalMove s p cards = ⟨false, some "card not in hand", none⟩ := by
  have hnone : takeFromHand cards (s.hands.getD p []) = none := by
    rcases ht : takeFromHand cards (s.hands.getD p []) with _ | h₀
    · rfl
    · have hle := takeFromHand_some_le ht
      rw [Multiset.le_iff_count] at hle
      have := hle c
      simp only [Multiset.coe_count] at this
      omega
  unfold isLegalMove
  rw [if_neg (by simp [hf]), if_neg (by simp [hst]), if_neg (by simp [hp]), hnone]

theorem duplicate_request_rejected_witness :
    isLegalMove sampleState 0 [⟨.r3, .clubs⟩, ⟨.r3, .clubs⟩] =
      ⟨false, some "card not in hand", none⟩ :=
  duplicate_request_rejected sampleState 0 [⟨.r3, .clubs⟩, ⟨.r3, .clubs⟩]
    ⟨.r3, .clubs⟩ rfl rfl rfl (by decide)

/-- The rank token of a card's text form (JavaScript strings are modelled as
`List Char`; every suit glyph is a single UTF-16 code unit, so `slice(-1)` is
the last character). -/
def rankChars : Rank → List Char
  | .r3 => ['3']
  | .r4 => ['4']
  | .r5 => ['5']
  | .r6 => ['6']
  | .r7 => ['7']
  | .r8 => ['8']
  | .r9 => ['9']
  | .r10 => ['1', '0']
  | .rJ => ['J']
  | .rQ => ['Q']
  | .rK => ['K']
  | .rA => ['A']
  | .r2 => ['2']

/-- The suit glyph of a card's text form. -/
def suitChar : Suit → Char
  | .spades => '♠'
  | .hearts => '♥'
  | .diamonds => '♦'
  | .clubs => '♣'

/-- Source `cardToString`: rank token followed by the suit glyph. -/
def cardToString (c : Card) : List Char :=
  rankChars c.rank ++ [suitChar c.suit]

/-- The source's `['♠','♥','♦','♣'].includes(suit)` check combined with the
cast of the accepted glyph back to a suit. -/
def charToSuit (ch : Char) : Option Suit :=
  if ch = '♠' then some .spades
  else if ch = '♥' then some .hearts
  else if ch = '♦' then some .diamonds
  else if ch = '♣' then some .clubs
  else none

/-- Source `parseCard`: split off the last character as the suit glyph, the rest as
the rank token; reject unknown glyphs and tokens (`RANKS.includes(rank)`). -/
def parseCard (s : List Char) : Option Card :=
  match s.getLast? with
  | none => none
  | some ch =>
    match charToSuit ch with
    | none => none
    | some su =>
      match RANKS.find? (fun r => rankChars r == s.dropLast) with
      | none => none
      | some r => some ⟨r, su⟩

/-- C9. Parsing the printed text form of any of the 52 cards (including the
two-character rank "10") returns exactly that card, and any string whose
suit glyph or rank token is unrecognized parses to an absent result rather
than a fault. -/
theorem parseCard_roundTrip :
    (∀ c : Card, parseCard (cardToString c) = some c) ∧
      ∀ s : List Char,
        (s.getLast?.bind charToSuit = none ∨
          RANKS.find? (fun r => rankChars r == s.dropLast) = none) →
        parseCard s = none := by
  constructor
  · intro c
    cases c with
    | mk r su => cases r <;> cases su <;> rfl
  · intro s h
    unfold parseCard
    rcases hl : s.getLast? with _ | ch
    · rfl
    · rcases hs : charToSuit ch with _ | su
      · simp [hs]
      · rcases hr : RANKS.find? (fun r => rankChars r == s.dropLast) with _ | r
        · simp [hs, hr]
        · exfalso
          rcases h with h | h
          · rw [hl] at h
            simp [hs] at h
          · rw [hr] at h
            cases h

theorem parseCard_roundTrip_witness :
    parseCard ['Z', '♠'] = none :=
  parseCard_roundTrip.2 ['Z', '♠'] (Or.inr (by decide))

/-- A JavaScript runtime fault. `dealPlayers` has no player-count validation:
with `players ≤ 0` the hands array is empty (`Array.from` clamps a negative
length to 0) and the loop index `i % players` is `NaN` or out of bounds, so
`hands[...]` is `undefined` and `.push` throws a TypeError. -/
inductive JsError where
  | typeError
deriving DecidableEq, Repr

/-- The cards of `deck` whose (running) index `i` satisfies
`i % n = seat` — the round-robin portion dealt to `seat`. -/
def rrFrom : List Card → Nat → Nat → Nat → List Card
  | [], _, _, _ => []
  | c :: rest, i, n, seat =>
    if i % n = seat then c :: rrFrom rest (i + 1) n seat
    else rrFrom rest (i + 1) n seat

/-- The source's deal loop `hands[i % players].push(deck[i])`: appends each
card to the indexed hand, faulting when the index is `NaN` (`n = 0`) or
outside the hands array. -/
def distribute : List Card → Nat → Nat → List (List Card) →
    Option (List (List Card))
  | [], _, _, hands => some hands
  | c :: rest, n, i, hands =>
    if n = 0 then none
    else if i % n < hands.length then
      distribute rest n (i + 1) (hands.set (i % n) (hands.getD (i % n) [] ++ [c]))
    else none

/-- Source `dealPlayers`: round-robin deal into `players` hands, each hand sorted for
display. A non-positive `players` makes the loop throw (modelled as
`Except.error`) as soon as there is a card to place. -/
def dealPlayers (deck : List Card) (players : Int) :
    Except JsError (List (List Card)) :=
  match distribute deck players.toNat 0 (List.replicate players.toNat []) with
  | some hs => .ok (hs.map sortCardsByRankSuit)
  | none => .error .typeError

theorem distribute_ok :
    ∀ (deck : List Card) (n i : Nat) (hands : List (List Card)),
      n ≠ 0 → hands.length = n →
      ∃ hs, distribute deck n i hands = some hs ∧ hs.length = n ∧
        ∀ seat, seat < n →
          hs.getD seat [] = hands.getD seat [] ++ rrFrom deck i n seat
  | [], n, i, hands, _, hlen =>
    ⟨hands, rfl, hlen, fun seat _ => by simp [rrFrom]⟩
  | c :: rest, n, i, hands, hn, hlen => by
    have hidx : i % n < hands.length := by
      rw [hlen]
      exact Nat.mod_lt _ (Nat.pos_of_ne_zero hn)
    obtain ⟨hs, hdist, hlen', hseat⟩ :=
      distribute_ok rest n (i + 1)
        (hands.set (i % n) (hands.getD (i % n) [] ++ [c])) hn
        (by rw [List.length_set]; exact hlen)
    refine ⟨hs, ?_, hlen', ?_⟩
    · unfold distribute
      rw [if_neg hn, if_pos hidx]
      exact hdist
    · intro seat hseat'
      rw [hseat seat hseat']
      have hcons : rrFrom (c :: rest) i n seat =
          if i % n = seat then c :: rrFrom rest (i + 1) n seat
          else rrFrom rest (i + 1) n seat := rfl
      by_cases he : i % n = seat
      · rw [he, getD_set_self _ _ _ _ (he ▸ hidx), hcons, if_pos he]
        simp
      · rw [getD_set_ne _ _ _ _ _ he, hcons, if_neg he]

theorem getD_replicate {α : Type} :
    ∀ (n i : Nat) (a : α), (List.replicate n a).getD i a = a
  | 0, _, _ => rfl
  | _ + 1, 0, _ => rfl
  | n + 1, i + 1, a => getD_replicate n i a

theorem getD_map_list {α β : Type} (f : α → β) :
    ∀ (l : List α) (i : Nat) (d : α), i < l.length →
      (l.map f).getD i (f d) = f (l.getD i d)
  | [], i, _, h => absurd h (by simp)
  | _ :: _, 0, _, _ => rfl
  | _ :: t, i + 1, d, h => getD_map_list f t i d (by simpa using h)

/-- C7 counterexample: with `playerCount = 0` and a card to deal, the source
throws an uncaught TypeError (`hands[NaN]` is `undefined`); there is no
structured InvalidConfiguration result anywhere in its return path. -/
theorem dealPlayers_zero_counterexample :
    dealPlayers [⟨.r3, .clubs⟩] 0 = Except.error JsError.typeError := rfl

/-- C7 (amended). For `playerCount ≤ 0` and a nonempty deck, `dealPlayers`
throws a runtime TypeError instead of returning a structured
InvalidConfiguration result; for `playerCount ≥ 1` it deals card `i` to seat
`i mod playerCount` and returns every hand sorted by the canonical
rank-then-suit order. -/
theorem dealPlayers_spec (deck : List Card) (players : Int) :
    (players ≤ 0 → deck ≠ [] → dealPlayers deck players = .error .typeError) ∧
    (1 ≤ players →
      ∃ hs, dealPlayers deck players = .ok hs ∧ hs.length = players.toNat ∧
        ∀ seat, seat < players.toNat →
          hs.getD seat [] = sortCardsByRankSuit (rrFrom deck 0 players.toNat seat) ∧
          List.Sorted cardLE (hs.getD seat [])) := by
  constructor
  · intro hneg hne
    have h0 : players.toNat = 0 := by omega
    unfold dealPlayers
    rw [h0]
    rcases deck with _ | ⟨c, rest⟩
    · exact absurd rfl hne
    · simp [distribute]
  · intro hpos
    have hn : players.toNat ≠ 0 := by omega
    obtain ⟨hs, hdist, hlen, hseat⟩ :=
      distribute_ok deck players.toNat 0 (List.replicate players.toNat []) hn
        (List.length_replicate _ _)
    refine ⟨hs.map sortCardsByRankSuit, ?_, ?_, ?_⟩
    · unfold dealPlayers
      rw [hdist]
    · rw [List.length_map]
      exact hlen
    · intro seat hseat'
      have hmap : (hs.map sortCardsByRankSuit).getD seat [] =
          sortCardsByRankSuit (hs.getD seat []) := by
        rw [show ([] : List Card) = sortCardsByRankSuit [] from rfl]
        exact getD_map_list _ _ _ _ (hlen ▸ hseat')
      rw [hmap, hseat seat hseat', getD_replicate]
      exact ⟨by simp, sortCards_sorted _⟩

theorem dealPlayers_spec_witness :
    dealPlayers [⟨.r3, .clubs⟩, ⟨.r4, .clubs⟩] 0 = .error .typeError ∧
      ∃ hs, dealPlayers [⟨.r3, .clubs⟩, ⟨.r4, .clubs⟩] 2 = .ok hs ∧
        hs.length = (2 : Int).toNat ∧
        ∀ seat, seat < (2 : Int).toNat →
          hs.getD seat [] =
            sortCardsByRankSuit
              (rrFrom [⟨.r3, .clubs⟩, ⟨.r4, .clubs⟩] 0 (2 : Int).toNat seat) ∧
          List.Sorted cardLE (hs.getD seat []) :=
  ⟨(dealPlayers_spec [⟨.r3, .clubs⟩, ⟨.r4, .clubs⟩] 0).1 (by decide) (by decide),
    (dealPlayers_spec [⟨.r3, .clubs⟩, ⟨.r4, .clubs⟩] 2).2 (by decide)⟩

/-- Source `groupCardsByRank`: cards grouped per rank, groups in hand order.
(JavaScript `Object.entries` would enumerate the numeric-string rank keys
first in ascending order; we keep first-occurrence key order, which only
permutes the candidate list and is irrelevant to the legality property
proved here, since every group still holds that rank's cards in hand
order.) -/
def groupCardsByRank (cards : List Card) : List (Rank × List Card) :=
  cards.foldl addToGroups []
where
  addToGroups : List (Rank × List Card) → Card → List (Rank × List Card)
    | [], c => [(c.rank, [c])]
    | (r, cs) :: rest, c =>
      if r = c.rank then (r, cs ++ [c]) :: rest
      else (r, cs) :: addToGroups rest c

/-- The `rankGroups[rank]` lookup plus the source's "no cards of this rank" test:
the first available card of a rank, if any. -/
def firstOfRank (groups : List (Rank × List Card)) (r : Rank) : Option Card :=
  match groups.find? (fun g => g.1 == r) with
  | some (_, c :: _) => some c
  | _ => none

/-- The inner loop of `findStraights`: walk the requested ranks, abort on the
top rank `2` or a missing rank, else take the first available card of each. -/
def collectStraight (groups : List (Rank × List Card)) :
    List Rank → Option (List Card)
  | [] => some []
  | r :: rs =>
    if r = Rank.r2 then none
    else
      match firstOfRank groups r, collectStraight groups rs with
      | some c, some cs => some (c :: cs)
      | _, _ => none

/-- Source `findStraights`: for each starting index `i < RANKS.length - 2` and each
length `3 ≤ len ≤ min 10 (RANKS.length - i)`, materialize the straight from
the first available card of each rank when possible. -/
def findStraights (hand : List Card) : List (List Card) :=
  ((List.range 11).map (fun i =>
    ((List.range (min 10 (13 - i) - 2)).map (fun k =>
      match collectStraight (groupCardsByRank hand)
          ((List.range (k + 3)).map (fun j => RANKS.getD (i + j) Rank.r2)) with
      | some cs => [cs]
      | none => [])).join)).join

/-- Source `getAllLegalMoves`: candidate singles, rank-group pairs/triples
(`slice(0,2)` / `slice(0,3)`), straights and four-card bombs, each kept only
when `isLegalMove` accepts it (the source filters each candidate at its
creation site; filtering the concatenated candidate list is the same list). -/
def getAllLegalMoves (s : GameState) (p : Nat) : List (List Card) :=
  (((s.hands.getD p []).map (fun c => [c])) ++
    ((groupCardsByRank (s.hands.getD p [])).map (fun g =>
      if 2 ≤ g.2.length then
        [g.2.take 2] ++ (if 3 ≤ g.2.length then [g.2.take 3] else [])
      else [])).join ++
    findStraights (s.hands.getD p []) ++
    ((groupCardsByRank (s.hands.getD p [])).map (fun g =>
      if g.2.length = 4 then [g.2] else [])).join).filter
    (fun m => (isLegalMove s p m).ok)

/-- The result record of `aiChooseMove`: `{ play }`. -/
structure AiResult where
  play : Option (List Card)
deriving DecidableEq, Repr

/-- Source `scoreOpeningMove`: the opening heuristic (prefer singles, mid ranks,
avoid breaking pairs; smaller shapes; structure bonus). -/
def scoreOpeningMove (move hand : List Card) (s : GameState) (p : Nat) : Int :=
  (if move.length = 1 then
    10 +
      (if 4 ≤ rankIndex (move.headD dummyCard).rank ∧
          rankIndex (move.headD dummyCard).rank ≤ 9 then 5 else 0) +
      (if 1 ≤ ((hand.filter (fun card =>
          !(card.rank == (move.headD dummyCard).rank &&
            card.suit == (move.headD dummyCard).suit))).filter
          (fun card => card.rank == (move.headD dummyCard).rank)).length
        then -3 else 0)
  else if move.length = 2 then 5
  else if move.length = 3 then 3
  else if 4 ≤ move.length then 1
  else 0) +
    (match detectCombo move with
      | some combo =>
        if combo.type = ComboType.pair ∨ combo.type = ComboType.triple then 2
        else 0
      | none => 0)

/-- The `scoredMoves` list of `selectBestOpeningMove`: each candidate paired
with its opening score. -/
def openScored (moves : List (List Card)) (hand : List Card) (s : GameState)
    (p : Nat) : List (List Card × Int) :=
  moves.map (fun m => (m, scoreOpeningMove m hand s p))

/-- The `scoredMoves` list of `selectBestFollowingMove`: each candidate scored
10 × comparator sign for beating `last`, +5 for matching `last`'s exact type
and size, −20 for a bomb, and −1000 (to be discarded) when it does not beat
`last`. -/
def followScored (last : Combo) (moves : List (List Card)) :
    List (List Card × Int) :=
  moves.map (fun m =>
    match detectCombo m with
    | none => (m, (-1000 : Int))
    | some combo =>
      if compareCombos last combo ≤ 0 then (m, (-1000 : Int))
      else
        (m, compareCombos last combo * 10 +
          (if combo.type = last.type ∧
              combo.cards.length = last.cards.length then 5 else 0) +
          (if combo.type = ComboType.bomb4 then -20 else 0)))

/-- Source `selectBestOpeningMove`: score, sort descending (`b.score - a.score`),
take the best (`scoredMoves[0]?.move || moves[0] || null`). -/
def selectBestOpeningMove (moves : List (List Card)) (s : GameState) (p : Nat) :
    Option (List Card) :=
  match (List.insertionSort (fun a b => b.2 ≤ a.2)
      (openScored moves (s.hands.getD p []) s p)).head? with
  | some best => some best.1
  | none => moves.head?

/-- Source `selectBestFollowingMove`: drop the −1000-scored non-beating candidates,
sort the rest descending by score, take the best (none when no candidate
beats the table). -/
def selectBestFollowingMove (moves : List (List Card)) (s : GameState)
    (p : Nat) : Option (List Card) :=
  match s.lastCombo with
  | none => moves.head?
  | some last =>
    match (List.insertionSort (fun a b => b.2 ≤ a.2)
        ((followScored last moves).filter (fun x => -1000 < x.2))).head? with
    | some best => some best.1
    | none => none

/-- Source `selectBestMove`: dispatch on whether the table is clear. -/
def selectBestMove (moves : List (List Card)) (s : GameState) (p : Nat) :
    Option (List Card) :=
  if moves.isEmpty then none
  else if s.lastCombo.isNone then selectBestOpeningMove moves s p
  else selectBestFollowingMove moves s p

/-- Source `aiChooseMove`: pass when no legal candidate exists, else pick the best
scored candidate. -/
def aiChooseMove (s : GameState) (p : Nat) : AiResult :=
  if (getAllLegalMoves s p).isEmpty then ⟨none⟩
  else ⟨selectBestMove (getAllLegalMoves s p) s p⟩

theorem head?_mem {α : Type} {l : List α} {a : α} (h : l.head? = some a) :
    a ∈ l := by
  cases l with
  | nil => cases h
  | cons x t =>
    rw [List.head?_cons, Option.some_inj] at h
    rw [← h]
    exact List.mem_cons_self x t

theorem mem_getAllLegalMoves_ok {s : GameState} {p : Nat} {m : List Card}
    (h : m ∈ getAllLegalMoves s p) : (isLegalMove s p m).ok = true := by
  unfold getAllLegalMoves at h
  exact (List.mem_filter.mp h).2

theorem selectBestOpening_mem {moves : List (List Card)} {s : GameState}
    {p : Nat} {m : List Card} (h : selectBestOpeningMove moves s p = some m) :
    m ∈ moves := by
  unfold selectBestOpeningMove at h
  rcases hh : (List.insertionSort (fun a b => b.2 ≤ a.2)
      (openScored moves (s.hands.getD p []) s p)).head? with _ | best <;>
    rw [hh] at h
  · exact head?_mem h
  · have hb : best ∈ openScored moves (s.hands.getD p []) s p := by
      have hmem := head?_mem hh
      rwa [List.mem_insertionSort] at hmem
    unfold openScored at hb
    obtain ⟨a, ha, hae⟩ := List.mem_map.mp hb
    rw [Option.some_inj] at h
    rw [← h, ← hae]
    exact ha

theorem selectBestFollowing_mem {moves : List (List Card)} {s : GameState}
    {p : Nat} {m : List Card}
    (h : selectBestFollowingMove moves s p = some m) : m ∈ moves := by
  unfold selectBestFollowingMove at h
  rcases hl : s.lastCombo with _ | last <;> rw [hl] at h
  · exact head?_mem h
  · have h2 : (match (List.insertionSort (fun a b => b.2 ≤ a.2)
        ((followScored last moves).filter (fun x => -1000 < x.2))).head? with
        | some best => some best.1
        | none => none) = some m := h
    rcases hh : (List.insertionSort (fun a b => b.2 ≤ a.2)
        ((followScored last moves).filter (fun x => -1000 < x.2))).head?
      with _ | best <;> rw [hh] at h2
    · cases h2
    · have hb := head?_mem hh
      rw [List.mem_insertionSort] at hb
      have hb2 := (List.mem_filter.mp hb).1
      unfold followScored at hb2
      obtain ⟨a, ha, hae⟩ := List.mem_map.mp hb2
      rw [Option.some_inj] at h2
      rw [← h2, ← congrArg Prod.fst hae]
      rcases detectCombo a with _ | combo
      · exact ha
      · split
        · exact ha
        · split <;> exact ha

theorem selectBest_mem {moves : List (List Card)} {s : GameState} {p : Nat}
    {m : List Card} (h : selectBestMove moves s p = some m) : m ∈ moves := by
  unfold selectBestMove at h
  by_cases h0 : moves.isEmpty
  · rw [if_pos h0] at h
    cases h
  · rw [if_neg h0] at h
    by_cases h1 : s.lastCombo.isNone
    · rw [if_pos h1] at h
      exact selectBestOpening_mem h
    · rw [if_neg h1] at h
      exact selectBestFollowing_mem h

/-- C8. Whenever `aiChooseMove` returns a non-absent card set, `isLegalMove`
on the same state and seat accepts it; and when the seat has no legal
candidate the result is the absent play (a pass) — the heuristic never
errors. -/
theorem aiChooseMove_legal (s : GameState) (p : Nat) :
    (∀ m, (aiChooseMove s p).play = some m → (isLegalMove s p m).ok = true) ∧
    (getAllLegalMoves s p = [] → (aiChooseMove s p).play = none) := by
  constructor
  · intro m hm
    unfold aiChooseMove at hm
    by_cases he : (getAllLegalMoves s p).isEmpty
    · rw [if_pos he] at hm
      cases hm
    · rw [if_neg he] at hm
      have hm2 : selectBestMove (getAllLegalMoves s p) s p = some m := hm
      exact mem_getAllLegalMoves_ok (selectBest_mem hm2)
  · intro he
    unfold aiChooseMove
    rw [if_pos (by simp [he])]

/-- An in-progress position whose seat 0 has no cards (so no candidate
moves). -/
def emptyHandState : GameState :=
  { players := 4
    hands := [[], [⟨.r4, .clubs⟩], [⟨.r5, .clubs⟩], [⟨.r6, .clubs⟩]]
    currentPlayer := 0
    lastCombo := none
    passesInRow := 0
    started := true
    finished := false }

theorem aiChooseMove_legal_witness :
    (isLegalMove sampleState 0 [⟨.r3, .clubs⟩]).ok = true ∧
      (aiChooseMove emptyHandState 0).play = none :=
  ⟨(aiChooseMove_legal sampleState 0).1 [⟨.r3, .clubs⟩] (by decide),
    (aiChooseMove_legal emptyHandState 0).2 (by decide)⟩

end TienLen
